import Mathlib

/-!
Verification of the WhatsApp chat parser (`whatsapp_parser.py`).

The development shallowly embeds the core of `parse_whatsapp_chat`:
  * the header regular expression
    `^(\d{1,2}/\d{1,2}/\d{2}),\s(\d{1,2}:\d{2}\s[ap]m)\s-\s([^:]+):\s(.+)$`
    as a small backtracking matcher over a fixed list of character-class
    items (the pattern has no alternation, so greedy bounded repetition
    with full continuation backtracking is the exact semantics of
    `re.match`);
  * `datetime.strptime(s, "%d/%m/%y, %I:%M %p")` as a continuation-passing
    recursive-descent parser mirroring the alternation order of the regex
    fragments CPython's `_strptime` compiles for each directive, plus the
    calendar-validity check performed by the `datetime` constructor;
  * the line loop of `parse_whatsapp_chat` as a left fold over the list of
    input lines with state `Option Msg × List Msg` (the "current open
    message" and the emitted messages);
  * `detect_script` from `detect_language_patterns`, with the Python float
    division and the `0.3` / `0.05` literals modelled as exact rationals.

Strings are Lean `String`s; one `Char` is one Unicode code point, matching
Python's model of `str`.
-/

/-- Python whitespace, as stripped by `str.strip()` and matched by the regex
class `\s` (restricted to the ASCII whitespace characters; the chats the
program targets contain no exotic Unicode spaces). -/
def isPyWs (c : Char) : Bool :=
  c = ' ' || c = '\t' || c = '\n' || c = '\r' || c = '\u000b' || c = '\u000c'

/-- Python `str.strip()`: remove leading and trailing whitespace. -/
def pyStrip (s : String) : String :=
  ⟨((s.data.dropWhile isPyWs).reverse.dropWhile isPyWs).reverse⟩

/-- One element of the compiled regular expression: a character class with a
greedy repetition range `lo..hi` (`hi = none` means unbounded, as in `+`).
A literal character is a class matching exactly that character with
`lo = hi = 1`. -/
structure Item where
  cls : Char → Bool
  lo : Nat
  hi : Option Nat

/-- Literal-character item. -/
def lit (c : Char) : Item := ⟨fun x => x = c, 1, some 1⟩

/-- Greedy backtracking for one item: try consuming `n` characters, then
`n - 1`, ..., down to `lo`, running the continuation `f` on the rest each
time.  This is exactly how a backtracking regex engine explores a greedy
bounded repetition. -/
def tryLen (f : List Char → Option (List Nat)) (cs : List Char) (lo : Nat) :
    Nat → Option (List Nat)
  | 0 =>
    if lo = 0 then
      match f cs with
      | some ns => some (0 :: ns)
      | none => none
    else none
  | n + 1 =>
    if n + 1 < lo then none
    else
      match f (cs.drop (n + 1)) with
      | some ns => some ((n + 1) :: ns)
      | none => tryLen f cs lo n

/-- Match a list of items against the input, anchored at the start; the end
anchor `$` accepts the end of the string or a sole trailing newline, as in
Python (`re.match` with `$` and no `MULTILINE`).  On success, return how
many characters each item consumed. -/
def matchItems : List Item → List Char → Option (List Nat)
  | [], cs => if cs = [] ∨ cs = ['\n'] then some [] else none
  | it :: rest, cs =>
    let run := (cs.takeWhile it.cls).length
    let top := match it.hi with
      | some h => min run h
      | none => run
    tryLen (matchItems rest) cs it.lo top

/-- The WhatsApp header pattern
`^(\d{1,2}/\d{1,2}/\d{2}),\s(\d{1,2}:\d{2}\s[ap]m)\s-\s([^:]+):\s(.+)$`
compiled to items.  Indices: 0-4 form group 1 (date), 7-12 group 2 (time),
16 group 3 (sender), 19 group 4 (message). -/
def whatsappItems : List Item :=
  [ ⟨Char.isDigit, 1, some 2⟩, lit '/', ⟨Char.isDigit, 1, some 2⟩, lit '/',
    ⟨Char.isDigit, 2, some 2⟩,
    lit ',', ⟨isPyWs, 1, some 1⟩,
    ⟨Char.isDigit, 1, some 2⟩, lit ':', ⟨Char.isDigit, 2, some 2⟩,
    ⟨isPyWs, 1, some 1⟩, ⟨fun c => c = 'a' || c = 'p', 1, some 1⟩, lit 'm',
    ⟨isPyWs, 1, some 1⟩, lit '-', ⟨isPyWs, 1, some 1⟩,
    ⟨fun c => c != ':', 1, none⟩, lit ':', ⟨isPyWs, 1, some 1⟩,
    ⟨fun c => c != '\n', 1, none⟩ ]

/-- The characters consumed by items `i ≤ k < j`, given the per-item
consumption counts `ns`. -/
def sliceOf (cs : List Char) (ns : List Nat) (i j : Nat) : List Char :=
  (cs.drop ((ns.take i).sum)).take ((ns.take j).sum - (ns.take i).sum)

/-- The result of `re.match(pattern, s)` for the header pattern: on success
the four captured groups (date token, time token, sender, first body line),
exactly the substrings the groups consumed. -/
def matchHeader (s : String) : Option (String × String × String × String) :=
  match matchItems whatsappItems s.data with
  | some ns =>
    some (⟨sliceOf s.data ns 0 5⟩, ⟨sliceOf s.data ns 7 13⟩,
          ⟨sliceOf s.data ns 16 17⟩, ⟨sliceOf s.data ns 19 20⟩)
  | none => none

/-- The line classifier of the source: `re.match(pattern, line.strip())`
succeeds. -/
def isHeaderLine (line : String) : Bool :=
  (matchHeader (pyStrip line)).isSome

/-- A parsed timestamp (the fields of the `datetime` the code builds). -/
structure DateTime where
  year : Nat
  month : Nat
  day : Nat
  hour : Nat
  minute : Nat
deriving DecidableEq

/-- Numeric value of a decimal digit character. -/
def digitVal (c : Char) : Nat := c.toNat - '0'.toNat

/-- The `%d` directive: CPython compiles it to `3[01]|[12]\d|0[1-9]|[1-9]`;
alternatives are tried in this order, with full continuation backtracking. -/
def pDay (cs : List Char) (k : Nat → List Char → Option DateTime) :
    Option DateTime :=
  (match cs with
   | '3' :: c :: r => if c = '0' || c = '1' then k (30 + digitVal c) r else none
   | _ => none) <|>
  (match cs with
   | a :: b :: r =>
     if (a = '1' || a = '2') && b.isDigit then k (10 * digitVal a + digitVal b) r
     else none
   | _ => none) <|>
  (match cs with
   | '0' :: b :: r => if '1' ≤ b && b ≤ '9' then k (digitVal b) r else none
   | _ => none) <|>
  (match cs with
   | a :: r => if '1' ≤ a && a ≤ '9' then k (digitVal a) r else none
   | _ => none)

/-- The `%m` and `%I` directives: `1[0-2]|0[1-9]|[1-9]`. -/
def pMonI (cs : List Char) (k : Nat → List Char → Option DateTime) :
    Option DateTime :=
  (match cs with
   | '1' :: c :: r => if '0' ≤ c && c ≤ '2' then k (10 + digitVal c) r else none
   | _ => none) <|>
  (match cs with
   | '0' :: b :: r => if '1' ≤ b && b ≤ '9' then k (digitVal b) r else none
   | _ => none) <|>
  (match cs with
   | a :: r => if '1' ≤ a && a ≤ '9' then k (digitVal a) r else none
   | _ => none)

/-- The `%y` directive: `\d\d`. -/
def pYY (cs : List Char) (k : Nat → List Char → Option DateTime) :
    Option DateTime :=
  match cs with
  | a :: b :: r =>
    if a.isDigit && b.isDigit then k (10 * digitVal a + digitVal b) r else none
  | _ => none

/-- The `%M` directive: `[0-5]\d|\d`. -/
def pMinu (cs : List Char) (k : Nat → List Char → Option DateTime) :
    Option DateTime :=
  (match cs with
   | a :: b :: r =>
     if ('0' ≤ a && a ≤ '5') && b.isDigit then k (10 * digitVal a + digitVal b) r
     else none
   | _ => none) <|>
  (match cs with
   | a :: r => if a.isDigit then k (digitVal a) r else none
   | _ => none)

/-- A literal character of the format string. -/
def pLit (c : Char) (cs : List Char) (k : List Char → Option DateTime) :
    Option DateTime :=
  match cs with
  | a :: r => if a = c then k r else none
  | _ => none

/-- A whitespace run of the format string, compiled by `_strptime` to `\s+`
(one or more whitespace characters; the following directives match digits
or letters, so maximal munch is exact here). -/
def pWsRun (cs : List Char) (k : List Char → Option DateTime) :
    Option DateTime :=
  match cs with
  | a :: r => if isPyWs a then k (r.dropWhile isPyWs) else none
  | _ => none

/-- The `%p` directive: `AM|PM` matched case-insensitively. The `Bool`
passed on is "is PM". -/
def pAmPm (cs : List Char) (k : Bool → List Char → Option DateTime) :
    Option DateTime :=
  match cs with
  | a :: b :: r =>
    if (a = 'a' || a = 'A') && (b = 'm' || b = 'M') then k false r
    else if (a = 'p' || a = 'P') && (b = 'm' || b = 'M') then k true r
    else none
  | _ => none

/-- Gregorian leap year. -/
def isLeap (y : Nat) : Bool := y % 4 = 0 && (y % 100 ≠ 0 || y % 400 = 0)

/-- Length of a month, as `datetime.date` validates it. -/
def daysInMonth (y m : Nat) : Nat :=
  if m = 2 then (if isLeap y then 29 else 28)
  else if m = 4 || m = 6 || m = 9 || m = 11 then 30
  else 31

/-- Model of `datetime.strptime(s, "%d/%m/%y, %I:%M %p")`: `none` exactly
when CPython raises `ValueError` (the directive regex does not match, the
input is not fully consumed, or the calendar date is invalid).  Two-digit
years map to 2000-2068 / 1969-1999; `%I` plus `%p` convert to a 24-hour
clock with `12 am` as hour 0 and `12 pm` as hour 12. -/
def strptimeDMY (s : String) : Option DateTime :=
  pDay s.data fun day r =>
  pLit '/' r fun r =>
  pMonI r fun mon r =>
  pLit '/' r fun r =>
  pYY r fun yy r =>
  pLit ',' r fun r =>
  pWsRun r fun r =>
  pMonI r fun hr12 r =>
  pLit ':' r fun r =>
  pMinu r fun minute r =>
  pWsRun r fun r =>
  pAmPm r fun isPM r =>
  if r = [] then
    let year := if yy ≤ 68 then 2000 + yy else 1900 + yy
    if day ≤ daysInMonth year mon then
      some ⟨year, mon, day, if isPM then hr12 % 12 + 12 else hr12 % 12, minute⟩
    else none
  else none

/-- One parsed message record (the dict the source builds). -/
structure Msg where
  datetime : Option DateTime
  date : String
  time : String
  sender : String
  message : String
deriving DecidableEq

/-- The record built when a header line matches: raw date and time tokens,
stripped sender, stripped first body line, and the decoded timestamp
(`None` on failure). -/
def mkMsg (d t s m : String) : Msg :=
  { datetime := strptimeDMY (d ++ ", " ++ t), date := d, time := t,
    sender := pyStrip s, message := pyStrip m }

/-- Appending the current open message (if any) to the emitted list: this is
both the "save the previous message" action on a new header and the final
"don't forget the last message" flush. -/
def flush (st : Option Msg × List Msg) : List Msg :=
  match st with
  | (some cm, msgs) => msgs ++ [cm]
  | (none, msgs) => msgs

/-- One iteration of the line loop of `parse_whatsapp_chat`. -/
def step (st : Option Msg × List Msg) (line : String) : Option Msg × List Msg :=
  match matchHeader (pyStrip line) with
  | some (date_str, time_str, sender, message_text) =>
    (some (mkMsg date_str time_str sender message_text), flush st)
  | none =>
    match st with
    | (some cm, msgs) =>
      if pyStrip line = "" then (some cm, msgs)
      else (some { cm with message := cm.message ++ "\n" ++ pyStrip line }, msgs)
    | (none, msgs) => (none, msgs)

/-- The core of `parse_whatsapp_chat`: fold the line loop over the input
lines (the result of `readlines`, one string per line) starting with no
open message, then flush the last open message. -/
def parse_whatsapp_chat (lines : List String) : List Msg :=
  flush (lines.foldl step (none, []))

/-- The `detect_script` helper of `detect_language_patterns`.  The Python
float ratio and the literals `0.3` and `0.05` are modelled as exact
rationals (for these operand sizes the float comparison agrees with the
exact one). -/
def detect_script (text : String) : String :=
  let hindi_chars := (text.data.filter fun c => 'ऀ' ≤ c && c ≤ 'ॿ').length
  let total_chars := text.data.length
  if total_chars = 0 then "other"
  else
    let hindi_ratio : ℚ := (hindi_chars : ℚ) / (total_chars : ℚ)
    if hindi_ratio > 3 / 10 then "hindi-heavy"
    else if hindi_ratio > 1 / 20 then "hinglish"
    else "english"

/-- The number of Devanagari code points of a string (the count
`detect_script` computes). -/
def hindiCount (text : String) : Nat :=
  (text.data.filter fun c => 'ऀ' ≤ c && c ≤ 'ॿ').length

/-- The reconstruction of a record as a block of transcript text: the header
prefix (date token, `", "`, time token, `" - "`), then the sender, the
separator `": "`, and the (possibly multi-line) message body. -/
def recon (m : Msg) : String :=
  m.date ++ ", " ++ m.time ++ " - " ++ m.sender ++ ": " ++ m.message

/-- The tail of a newline join: one leading `"\n"` before every line. -/
def joinTail : List String → String
  | [] => ""
  | l :: ls => "\n" ++ l ++ joinTail ls

/-- Join a list of lines with single newlines (the inverse of splitting a
transcript into lines). -/
def joinNL : List String → String
  | [] => ""
  | l :: ls => l ++ joinTail ls

/-- A header line in canonical form: it matches the pattern, carries no
surrounding whitespace anywhere (the line, the sender group and the message
group are all fixed by `strip`), and is literally the concatenation of its
groups with the canonical separators `", "`, `" - "`, `": "`. -/
def canonicalHeader (l : String) : Bool :=
  match matchHeader l with
  | some (d, t, s, m) =>
    decide (pyStrip l = l ∧ pyStrip s = s ∧ pyStrip m = m ∧
      l = d ++ ", " ++ t ++ " - " ++ s ++ ": " ++ m)
  | none => false

/-- A transcript line in canonical form: either a canonical header, or a
non-header line that is non-empty and already stripped. -/
def canonicalLine (l : String) : Bool :=
  canonicalHeader l || (!(isHeaderLine l) && (pyStrip l == l) && !(l == ""))

/-- How many input lines a record's body is made of: its first line plus one
per newline appended by the continuation branch. -/
def segCount (m : Msg) : Nat := 1 + m.message.data.count '\n'

/-- Total number of input lines accounted for by a list of records. -/
def totalSegs (l : List Msg) : Nat := (l.map segCount).sum

/-- A line the assembler assigns to a message once one is open: a header
line (it starts a message) or a line that is non-empty after stripping
(it is appended). -/
def assignedB (l : String) : Bool := isHeaderLine l || !(pyStrip l == "")

/-- The fields of a record that are fixed at creation and never touched by
continuation appends. -/
def coreFields (m : Msg) : Option DateTime × String × String × String :=
  (m.datetime, m.date, m.time, m.sender)

/-- Whether a message is currently open (1) or not (0). -/
def openCount : Option Msg → Nat
  | some _ => 1
  | none => 0

/-- Membership survives `dropWhile`. -/
lemma mem_of_mem_dropWhile {α : Type} (p : α → Bool) :
    ∀ (l : List α) (a : α), a ∈ l.dropWhile p → a ∈ l := by
  intro l
  induction l with
  | nil => intro a h; simp [List.dropWhile] at h
  | cons x xs ih =>
    intro a h
    rw [List.dropWhile_cons] at h
    by_cases hx : p x
    · simp only [hx, if_true] at h
      exact List.mem_cons_of_mem _ (ih a h)
    · simp only [hx, Bool.false_eq_true, if_false] at h
      exact h

/-- A character of a stripped string is a character of the string. -/
lemma mem_pyStrip {c : Char} {s : String} (h : c ∈ (pyStrip s).data) : c ∈ s.data := by
  have h' : c ∈ ((s.data.dropWhile isPyWs).reverse.dropWhile isPyWs).reverse := h
  rw [List.mem_reverse] at h'
  have h2 := mem_of_mem_dropWhile _ _ _ h'
  rw [List.mem_reverse] at h2
  exact mem_of_mem_dropWhile _ _ _ h2

/-- Dropping while a predicate holds skips a fully-satisfying block. -/
lemma dropWhile_append_all {p : Char → Bool} :
    ∀ (a b : List Char), (∀ c ∈ a, p c = true) → (a ++ b).dropWhile p = b.dropWhile p := by
  intro a
  induction a with
  | nil => intro b _; simp
  | cons x xs ih =>
    intro b h
    rw [List.cons_append, List.dropWhile_cons, if_pos (h x (List.mem_cons_self x xs))]
    exact ih b fun c hc => h c (List.mem_cons_of_mem _ hc)

/-- `takeWhile` never yields more than the list. -/
lemma takeWhile_len_le {p : Char → Bool} : ∀ cs : List Char, (cs.takeWhile p).length ≤ cs.length := by
  intro cs
  induction cs with
  | nil => simp
  | cons x xs ih =>
    rw [List.takeWhile_cons]
    by_cases hx : p x
    · simp only [hx, if_true, List.length_cons]
      omega
    · simp only [hx, Bool.false_eq_true, if_false, List.length_nil, List.length_cons]
      omega

/-- Characters inside the first `n` positions satisfy `p` when the
`takeWhile p` run is at least `n` long. -/
lemma sat_of_take_le_takeWhile {p : Char → Bool} :
    ∀ (cs : List Char) (n : Nat), n ≤ (cs.takeWhile p).length →
      ∀ c ∈ cs.take n, p c = true := by
  intro cs
  induction cs with
  | nil => intro n _ c hc; simp at hc
  | cons x xs ih =>
    intro n hn c hc
    cases n with
    | zero => simp at hc
    | succ m =>
      cases hx : p x with
      | false =>
        rw [List.takeWhile_cons, if_neg (by simp [hx])] at hn
        simp at hn
      | true =>
        rw [List.takeWhile_cons, if_pos hx, List.length_cons] at hn
        rw [List.take_succ_cons] at hc
        rcases List.mem_cons.mp hc with hc | hc
        · rw [hc]; exact hx
        · exact ih m (by omega) c hc

/-- What a successful `tryLen` tells us: the head count is between `lo` and
the attempted maximum and the continuation succeeded on the rest. -/
lemma tryLen_sound (f : List Char → Option (List Nat)) (cs : List Char) (lo : Nat) :
    ∀ (n : Nat) (res : List Nat), tryLen f cs lo n = some res →
      ∃ k ks, res = k :: ks ∧ lo ≤ k ∧ k ≤ n ∧ f (cs.drop k) = some ks := by
  intro n
  induction n with
  | zero =>
    intro res h
    simp only [tryLen] at h
    by_cases hlo : lo = 0
    · rw [if_pos hlo] at h
      cases hf : f cs with
      | none => rw [hf] at h; cases h
      | some ns =>
        rw [hf] at h
        refine ⟨0, ns, ?_, by omega, le_refl 0, by simpa using hf⟩
        cases h; rfl
    · rw [if_neg hlo] at h; cases h
  | succ m ih =>
    intro res h
    simp only [tryLen] at h
    by_cases hlt : m + 1 < lo
    · rw [if_pos hlt] at h; cases h
    · rw [if_neg hlt] at h
      cases hf : f (cs.drop (m + 1)) with
      | some ns =>
        rw [hf] at h
        refine ⟨m + 1, ns, ?_, by omega, le_refl _, hf⟩
        cases h; rfl
      | none =>
        rw [hf] at h
        obtain ⟨k, ks, hres, hlo2, hk, hfk⟩ := ih res h
        exact ⟨k, ks, hres, hlo2, by omega, hfk⟩

/-- Specification of a successful match: each item consumed at least its
lower bound, only characters of its class, and the remainder matched the
remaining items; the end anchor accepts `[]` or a final newline. -/
inductive MatchSpec : List Item → List Char → List Nat → Prop where
  | nil : ∀ cs : List Char, cs = [] ∨ cs = ['\n'] → MatchSpec [] cs []
  | cons : ∀ (it : Item) (rest : List Item) (cs : List Char) (n : Nat) (ns : List Nat),
      it.lo ≤ n → n ≤ (cs.takeWhile it.cls).length →
      MatchSpec rest (cs.drop n) ns → MatchSpec (it :: rest) cs (n :: ns)

/-- Soundness of the matcher with respect to `MatchSpec`. -/
lemma matchItems_sound : ∀ (items : List Item) (cs : List Char) (ns : List Nat),
    matchItems items cs = some ns → MatchSpec items cs ns := by
  intro items
  induction items with
  | nil =>
    intro cs ns h
    simp only [matchItems] at h
    by_cases hcs : cs = [] ∨ cs = ['\n']
    · rw [if_pos hcs] at h
      cases h
      exact MatchSpec.nil cs hcs
    · rw [if_neg hcs] at h; cases h
  | cons it rest ih =>
    intro cs ns h
    simp only [matchItems] at h
    obtain ⟨k, ks, rfl, hlo, hk, hf⟩ := tryLen_sound _ _ _ _ _ h
    refine MatchSpec.cons it rest cs k ks hlo ?_ (ih _ _ hf)
    cases hhi : it.hi with
    | some hb =>
      rw [hhi] at hk
      exact le_trans hk (min_le_left _ _)
    | none => rw [hhi] at hk; exact hk

/-- A match consumes one count per item. -/
lemma spec_length : ∀ {items : List Item} {cs : List Char} {ns : List Nat},
    MatchSpec items cs ns → ns.length = items.length := by
  intro items cs ns h
  induction h with
  | nil => simp
  | cons _ _ _ _ _ _ _ _ ih => simp [ih]

/-- Shifting a slice over the first consumed block. -/
lemma sliceOf_cons_succ (cs : List Char) (n : Nat) (ns : List Nat) (i : Nat) :
    sliceOf cs (n :: ns) (i + 1) (i + 2) = sliceOf (cs.drop n) ns i (i + 1) := by
  have h1 : ((n :: ns).take (i + 1)).sum = n + (ns.take i).sum := by
    rw [List.take_succ_cons, List.sum_cons]
  have h2 : ((n :: ns).take (i + 2)).sum = n + (ns.take (i + 1)).sum := by
    rw [show i + 2 = (i + 1) + 1 from rfl, List.take_succ_cons, List.sum_cons]
  unfold sliceOf
  rw [h1, h2, List.drop_drop]
  congr 1
  omega

/-- Per-item facts of a match: the consumed block of item `i` has length
`ns.get i` (at least the item's lower bound) and all its characters satisfy
the item's class. -/
lemma spec_props : ∀ {items : List Item} {cs : List Char} {ns : List Nat},
    MatchSpec items cs ns → ∀ (i : Nat) (h1 : i < items.length) (h2 : i < ns.length),
      (items.get ⟨i, h1⟩).lo ≤ ns.get ⟨i, h2⟩ ∧
      (sliceOf cs ns i (i + 1)).length = ns.get ⟨i, h2⟩ ∧
      ∀ c ∈ sliceOf cs ns i (i + 1), (items.get ⟨i, h1⟩).cls c = true := by
  intro items cs ns h
  induction h with
  | nil cs hcs => intro i h1 _; simp at h1
  | cons it rest cs n ns hlo hrun hspec ih =>
    intro i h1 h2
    cases i with
    | zero =>
      have hslice : sliceOf cs (n :: ns) 0 1 = cs.take n := by
        unfold sliceOf
        simp [List.take_succ_cons]
      refine ⟨hlo, ?_, ?_⟩
      · rw [hslice, List.length_take]
        exact min_eq_left (le_trans hrun (takeWhile_len_le cs))
      · rw [hslice]
        intro c hc
        exact sat_of_take_le_takeWhile cs n hrun c hc
    | succ j =>
      rw [sliceOf_cons_succ]
      have hj1 : j < rest.length := by
        simp only [List.length_cons] at h1
        omega
      have hj2 : j < ns.length := by
        simp only [List.length_cons] at h2
        omega
      have := ih j hj1 hj2
      simpa using this

/-- Unpacking a successful header match into the consumption counts and the
slices the four groups denote. -/
lemma matchHeader_elim {str d t s m : String}
    (h : matchHeader str = some (d, t, s, m)) :
    ∃ ns, matchItems whatsappItems str.data = some ns ∧
      d.data = sliceOf str.data ns 0 5 ∧ t.data = sliceOf str.data ns 7 13 ∧
      s.data = sliceOf str.data ns 16 17 ∧ m.data = sliceOf str.data ns 19 20 := by
  unfold matchHeader at h
  cases hm : matchItems whatsappItems str.data with
  | none => rw [hm] at h; cases h
  | some ns =>
    rw [hm] at h
    simp only [Option.some.injEq, Prod.mk.injEq] at h
    obtain ⟨h1, h2, h3, h4⟩ := h
    subst h1; subst h2; subst h3; subst h4
    exact ⟨ns, rfl, rfl, rfl, rfl, rfl⟩

/-- The sender group of a matched header contains no colon: its characters
all come from the class `[^:]`. -/
lemma matchHeader_sender_no_colon {str d t s m : String}
    (h : matchHeader str = some (d, t, s, m)) : ∀ c ∈ s.data, ¬(c = ':') := by
  obtain ⟨ns, hm, _, _, hs, _⟩ := matchHeader_elim h
  have hspec := matchItems_sound _ _ _ hm
  have hlen : ns.length = whatsappItems.length := spec_length hspec
  have h16 : (16 : Nat) < whatsappItems.length := by
    rw [show whatsappItems.length = 20 from rfl]; omega
  have h16n : (16 : Nat) < ns.length := by omega
  obtain ⟨_, _, hcls⟩ := spec_props hspec 16 h16 h16n
  intro c hc
  have := hcls c (by rw [← hs]; exact hc)
  have hget : (whatsappItems.get ⟨16, h16⟩).cls = fun c => c != ':' := rfl
  rw [hget] at this
  simpa using this

/-- The sender group of a matched header is non-empty (the class is
repeated with `+`). -/
lemma matchHeader_sender_ne_empty {str d t s m : String}
    (h : matchHeader str = some (d, t, s, m)) : s ≠ "" := by
  obtain ⟨ns, hm, _, _, hs, _⟩ := matchHeader_elim h
  have hspec := matchItems_sound _ _ _ hm
  have hlen : ns.length = whatsappItems.length := spec_length hspec
  have h16 : (16 : Nat) < whatsappItems.length := by
    rw [show whatsappItems.length = 20 from rfl]; omega
  have h16n : (16 : Nat) < ns.length := by omega
  obtain ⟨hlo, hslen, _⟩ := spec_props hspec 16 h16 h16n
  have hget : (whatsappItems.get ⟨16, h16⟩).lo = 1 := rfl
  rw [hget] at hlo
  intro hemp
  rw [hemp] at hs
  have : (0 : Nat) = ns.get ⟨16, h16n⟩ := by
    rw [← hslen, ← hs]; rfl
  omega

/-- The message group of a matched header contains no newline: its
characters all come from the class `.` of the anchored pattern. -/
lemma matchHeader_msg_no_newline {str d t s m : String}
    (h : matchHeader str = some (d, t, s, m)) : ∀ c ∈ m.data, ¬(c = '\n') := by
  obtain ⟨ns, hm, _, _, _, hmsg⟩ := matchHeader_elim h
  have hspec := matchItems_sound _ _ _ hm
  have hlen : ns.length = whatsappItems.length := spec_length hspec
  have h19 : (19 : Nat) < whatsappItems.length := by
    rw [show whatsappItems.length = 20 from rfl]; omega
  have h19n : (19 : Nat) < ns.length := by omega
  obtain ⟨_, _, hcls⟩ := spec_props hspec 19 h19 h19n
  intro c hc
  have := hcls c (by rw [← hmsg]; exact hc)
  have hget : (whatsappItems.get ⟨19, h19⟩).cls = fun c => c != '\n' := rfl
  rw [hget] at this
  simpa using this

/-- The message group of a matched header is non-empty: `(.+)` consumes at
least one character. -/
lemma matchHeader_msg_ne_empty {str d t s m : String}
    (h : matchHeader str = some (d, t, s, m)) : m ≠ "" := by
  obtain ⟨ns, hm, _, _, _, hmsg⟩ := matchHeader_elim h
  have hspec := matchItems_sound _ _ _ hm
  have hlen : ns.length = whatsappItems.length := spec_length hspec
  have h19 : (19 : Nat) < whatsappItems.length := by
    rw [show whatsappItems.length = 20 from rfl]; omega
  have h19n : (19 : Nat) < ns.length := by omega
  obtain ⟨hlo, hslen, _⟩ := spec_props hspec 19 h19 h19n
  have hget : (whatsappItems.get ⟨19, h19⟩).lo = 1 := rfl
  rw [hget] at hlo
  intro hemp
  rw [hemp] at hmsg
  have : (0 : Nat) = ns.get ⟨19, h19n⟩ := by
    rw [← hslen, ← hmsg]; rfl
  omega

/-- Step equation: a header line emits the open message (if any) and opens a
fresh one built from the groups. -/
lemma step_header (st : Option Msg × List Msg) {l d t s m : String}
    (h : matchHeader (pyStrip l) = some (d, t, s, m)) :
    step st l = (some (mkMsg d t s m), flush st) := by
  simp [step, h]

/-- Step equation: a non-header, non-empty line is appended to the open
message's body after a newline. -/
lemma step_cont {cm : Msg} {msgs : List Msg} {l : String}
    (h : matchHeader (pyStrip l) = none) (hne : ¬(pyStrip l = "")) :
    step (some cm, msgs) l =
      (some { cm with message := cm.message ++ "\n" ++ pyStrip l }, msgs) := by
  simp [step, h, hne]

/-- Step equation: a non-header line that strips to the empty string changes
nothing. -/
lemma step_skip {cm : Msg} {msgs : List Msg} {l : String}
    (h : matchHeader (pyStrip l) = none) (hemp : pyStrip l = "") :
    step (some cm, msgs) l = (some cm, msgs) := by
  simp only [step, h]
  simp [hemp]

/-- Step equation: a non-header line with no open message is discarded. -/
lemma step_nocur {msgs : List Msg} {l : String}
    (h : matchHeader (pyStrip l) = none) :
    step (none, msgs) l = (none, msgs) := by
  simp [step, h]

/-- Length of the flushed state. -/
lemma flush_len (cur : Option Msg) (msgs : List Msg) :
    (flush (cur, msgs)).length = msgs.length + openCount cur := by
  cases cur <;> simp [flush, openCount]

/-- A matched line is classified as a header. -/
lemma isHeaderLine_true {l d t s m : String}
    (h : matchHeader (pyStrip l) = some (d, t, s, m)) : isHeaderLine l = true := by
  simp [isHeaderLine, h]

/-- An unmatched line is not classified as a header. -/
lemma isHeaderLine_false {l : String} (h : matchHeader (pyStrip l) = none) :
    isHeaderLine l = false := by
  simp [isHeaderLine, h]

/-- Key counting invariant of the line loop: from any state, the number of
records finally flushed is the records already emitted, plus one for the
open message, plus one per remaining header line. -/
lemma length_flush_foldl : ∀ (rest : List String) (cur : Option Msg) (msgs : List Msg),
    (flush (rest.foldl step (cur, msgs))).length
      = msgs.length + openCount cur + rest.countP isHeaderLine := by
  intro rest
  induction rest with
  | nil => intro cur msgs; simp [flush_len]
  | cons l tl ih =>
    intro cur msgs
    simp only [List.foldl_cons, List.countP_cons]
    cases hm : matchHeader (pyStrip l) with
    | some g =>
      obtain ⟨d, t, s, m⟩ := g
      rw [step_header (cur, msgs) hm, ih, flush_len, isHeaderLine_true hm]
      simp [openCount]
      omega
    | none =>
      rw [isHeaderLine_false hm]
      cases cur with
      | none => rw [step_nocur hm, ih]; simp
      | some cm =>
        by_cases hemp : pyStrip l = ""
        · rw [step_skip hm hemp, ih]; simp
        · rw [step_cont hm hemp, ih]; simp [openCount]

/-- Emitted records survive flushing. -/
lemma mem_flush_of_mem {st : Option Msg × List Msg} {m : Msg} (h : m ∈ st.2) :
    m ∈ flush st := by
  obtain ⟨cur, msgs⟩ := st
  cases cur with
  | none => exact h
  | some cm => exact List.mem_append_left _ h

/-- Emitted records survive every later step. -/
lemma mem_step_snd {st : Option Msg × List Msg} {m : Msg} (l : String) (h : m ∈ st.2) :
    m ∈ (step st l).2 := by
  obtain ⟨cur, msgs⟩ := st
  cases hm : matchHeader (pyStrip l) with
  | some g =>
    obtain ⟨d, t, s, mm⟩ := g
    rw [step_header (cur, msgs) hm]
    exact mem_flush_of_mem h
  | none =>
    cases cur with
    | none => rw [step_nocur hm]; exact h
    | some cm =>
      by_cases hemp : pyStrip l = ""
      · rw [step_skip hm hemp]; exact h
      · rw [step_cont hm hemp]; exact h

/-- Emitted records survive the rest of the run. -/
lemma mem_flush_foldl : ∀ (rest : List String) (st : Option Msg × List Msg) (m : Msg),
    m ∈ st.2 → m ∈ flush (rest.foldl step st) := by
  intro rest
  induction rest with
  | nil => intro st m h; exact mem_flush_of_mem h
  | cons l tl ih =>
    intro st m h
    simp only [List.foldl_cons]
    exact ih (step st l) m (mem_step_snd l h)

/-- The open message reaches the output with its creation-time fields
(timestamp, date token, time token, sender) intact: continuation lines only
touch the body. -/
lemma cur_fields_emitted : ∀ (rest : List String) (cur : Msg) (msgs : List Msg),
    ∃ m ∈ flush (rest.foldl step (some cur, msgs)), coreFields m = coreFields cur := by
  intro rest
  induction rest with
  | nil =>
    intro cur msgs
    exact ⟨cur, by simp [flush], rfl⟩
  | cons l tl ih =>
    intro cur msgs
    simp only [List.foldl_cons]
    cases hm : matchHeader (pyStrip l) with
    | some g =>
      obtain ⟨d, t, s, mm⟩ := g
      rw [step_header (some cur, msgs) hm]
      have hmem : cur ∈ (some (mkMsg d t s mm), flush (some cur, msgs)).2 := by
        simp [flush]
      exact ⟨cur, mem_flush_foldl tl _ cur hmem, rfl⟩
    | none =>
      by_cases hemp : pyStrip l = ""
      · rw [step_skip hm hemp]; exact ih cur msgs
      · rw [step_cont hm hemp]
        obtain ⟨m, hmem, hfield⟩ := ih { cur with message := cur.message ++ "\n" ++ pyStrip l } msgs
        exact ⟨m, hmem, by rw [hfield]; rfl⟩

/-- Every header line of the remaining input eventually contributes a record
carrying the fields built from its groups. -/
lemma header_line_creates : ∀ (rest : List String) (st : Option Msg × List Msg)
    (l d t s m : String), l ∈ rest → matchHeader (pyStrip l) = some (d, t, s, m) →
    ∃ msg ∈ flush (rest.foldl step st), coreFields msg = coreFields (mkMsg d t s m) := by
  intro rest
  induction rest with
  | nil => intro st l d t s m hmem; cases hmem
  | cons a tl ih =>
    intro st l d t s m hmem hm
    rcases List.mem_cons.mp hmem with rfl | hmem'
    · simp only [List.foldl_cons]
      rw [step_header st hm]
      exact cur_fields_emitted tl (mkMsg d t s m) (flush st)
    · simp only [List.foldl_cons]
      exact ih (step st a) l d t s m hmem' hm

/-- A freshly created record accounts for exactly one input line: its first
body line contains no newline. -/
lemma mkMsg_segCount {l d t s m : String}
    (h : matchHeader (pyStrip l) = some (d, t, s, m)) :
    segCount (mkMsg d t s m) = 1 := by
  unfold segCount mkMsg
  have : ('\n' : Char) ∉ (pyStrip m).data := fun hc =>
    matchHeader_msg_no_newline h '\n' (mem_pyStrip hc) rfl
  simp [List.count_eq_zero.mpr this]

/-- Appending a continuation line adds exactly one to a record's line
count, provided the input line itself has no embedded newline. -/
lemma segCount_append {cm : Msg} {l : String} (h : ('\n' : Char) ∉ l.data) :
    segCount { cm with message := cm.message ++ "\n" ++ pyStrip l } = segCount cm + 1 := by
  unfold segCount
  have hnl : ('\n' : Char) ∉ (pyStrip l).data := fun hc => h (mem_pyStrip hc)
  simp only [String.data_append, List.count_append]
  rw [List.count_eq_zero.mpr hnl]
  simp [String.data]
  rfl

/-- Accounting over a flushed snoc. -/
lemma totalSegs_snoc (msgs : List Msg) (cm : Msg) :
    totalSegs (msgs ++ [cm]) = totalSegs msgs + segCount cm := by
  simp [totalSegs]

/-- A header line counts as assigned. -/
lemma assignedB_header {l : String} (h : isHeaderLine l = true) : assignedB l = true := by
  simp [assignedB, h]

/-- A non-empty line counts as assigned. -/
lemma assignedB_nonempty {l : String} (h : ¬(pyStrip l = "")) : assignedB l = true := by
  simp [assignedB, h]

/-- A non-header line that strips to nothing is not assigned. -/
lemma assignedB_empty {l : String} (h1 : isHeaderLine l = false) (h2 : pyStrip l = "") :
    assignedB l = false := by
  simp [assignedB, h1, h2]

/-- Line-conservation invariant while a message is open: every remaining
assigned line (header or non-empty) grows the final line count by one. -/
lemma segs_inv_some : ∀ (rest : List String) (cur : Msg) (msgs : List Msg),
    (∀ l ∈ rest, ('\n' : Char) ∉ l.data) →
    totalSegs (flush (rest.foldl step (some cur, msgs)))
      = totalSegs msgs + segCount cur + rest.countP assignedB := by
  intro rest
  induction rest with
  | nil =>
    intro cur msgs _
    simp [flush, totalSegs_snoc]
  | cons l tl ih =>
    intro cur msgs hnl
    have hnl_l : ('\n' : Char) ∉ l.data := hnl l (List.mem_cons_self l tl)
    have hnl_tl : ∀ l' ∈ tl, ('\n' : Char) ∉ l'.data :=
      fun l' hl' => hnl l' (List.mem_cons_of_mem _ hl')
    simp only [List.foldl_cons, List.countP_cons]
    cases hm : matchHeader (pyStrip l) with
    | some g =>
      obtain ⟨d, t, s, m⟩ := g
      rw [step_header (some cur, msgs) hm]
      have : flush (some cur, msgs) = msgs ++ [cur] := rfl
      rw [this, ih _ _ hnl_tl, totalSegs_snoc, mkMsg_segCount hm,
        assignedB_header (isHeaderLine_true hm)]
      simp
      omega
    | none =>
      by_cases hemp : pyStrip l = ""
      · rw [step_skip hm hemp, ih _ _ hnl_tl,
          assignedB_empty (isHeaderLine_false hm) hemp]
        simp
      · rw [step_cont hm hemp, ih _ _ hnl_tl, segCount_append hnl_l,
          assignedB_nonempty hemp]
        simp
        omega

/-- Line-conservation before the first header: leading non-header lines are
discarded, and from the first header on every assigned line is counted. -/
lemma segs_inv_none : ∀ (rest : List String) (msgs : List Msg),
    (∀ l ∈ rest, ('\n' : Char) ∉ l.data) →
    totalSegs (flush (rest.foldl step (none, msgs)))
      = totalSegs msgs + (rest.dropWhile fun l => !(isHeaderLine l)).countP assignedB := by
  intro rest
  induction rest with
  | nil => intro msgs _; simp [flush]
  | cons l tl ih =>
    intro msgs hnl
    have hnl_tl : ∀ l' ∈ tl, ('\n' : Char) ∉ l'.data :=
      fun l' hl' => hnl l' (List.mem_cons_of_mem _ hl')
    simp only [List.foldl_cons]
    cases hm : matchHeader (pyStrip l) with
    | some g =>
      obtain ⟨d, t, s, m⟩ := g
      rw [step_header (none, msgs) hm]
      have hflush : flush ((none : Option Msg), msgs) = msgs := rfl
      rw [hflush, List.dropWhile_cons, if_neg (by simp [isHeaderLine_true hm]),
        List.countP_cons, segs_inv_some tl _ _ hnl_tl, mkMsg_segCount hm,
        assignedB_header (isHeaderLine_true hm)]
      simp
      omega
    | none =>
      rw [step_nocur hm, List.dropWhile_cons, if_pos (by simp [isHeaderLine_false hm])]
      exact ih msgs hnl_tl

/-- Join tail over a snoc. -/
lemma joinTail_snoc : ∀ (xs : List String) (y : String),
    joinTail (xs ++ [y]) = joinTail xs ++ ("\n" ++ y) := by
  intro xs
  induction xs with
  | nil => intro y; simp [joinTail, String.append_empty, String.empty_append]
  | cons x xs ih =>
    intro y
    rw [List.cons_append]
    show "\n" ++ x ++ joinTail (xs ++ [y]) = "\n" ++ x ++ joinTail xs ++ ("\n" ++ y)
    rw [ih y, ← String.append_assoc]

/-- Join over a snoc of a non-empty list. -/
lemma joinNL_snoc : ∀ (xs : List String) (y : String), xs ≠ [] →
    joinNL (xs ++ [y]) = joinNL xs ++ ("\n" ++ y) := by
  intro xs y h
  cases xs with
  | nil => exact absurd rfl h
  | cons x xs =>
    simp only [List.cons_append, joinNL, joinTail_snoc, String.append_assoc]

/-- Extending the last joined line extends the join. -/
lemma joinNL_snoc_app : ∀ (xs : List String) (y z : String),
    joinNL (xs ++ [y ++ z]) = joinNL (xs ++ [y]) ++ z := by
  intro xs
  induction xs with
  | nil => intro y z; simp [joinNL, joinTail, String.append_empty]
  | cons x xs ih =>
    intro y z
    simp only [List.cons_append, joinNL]
    rw [joinTail_snoc, joinTail_snoc]
    simp [String.append_assoc]

/-- Unpacking a canonical header line. -/
lemma canonicalHeader_elim {l : String} (h : canonicalHeader l = true) :
    ∃ d t s m, matchHeader l = some (d, t, s, m) ∧ pyStrip l = l ∧ pyStrip s = s ∧
      pyStrip m = m ∧ l = d ++ ", " ++ t ++ " - " ++ s ++ ": " ++ m := by
  unfold canonicalHeader at h
  cases hm : matchHeader l with
  | none => rw [hm] at h; cases h
  | some g =>
    obtain ⟨d, t, s, m⟩ := g
    rw [hm] at h
    rw [decide_eq_true_eq] at h
    exact ⟨d, t, s, m, rfl, h.1, h.2.1, h.2.2.1, h.2.2.2⟩

/-- The record created from a canonical header reconstructs the header line
verbatim. -/
lemma recon_mkMsg {l d t s m : String} (hs : pyStrip s = s) (hm : pyStrip m = m)
    (heq : l = d ++ ", " ++ t ++ " - " ++ s ++ ": " ++ m) :
    recon (mkMsg d t s m) = l := by
  show d ++ ", " ++ t ++ " - " ++ pyStrip s ++ ": " ++ pyStrip m = l
  rw [hs, hm]
  exact heq.symm

/-- Appending a continuation line appends to the reconstruction. -/
lemma recon_append (cm : Msg) (x : String) :
    recon { cm with message := cm.message ++ "\n" ++ x } = recon cm ++ ("\n" ++ x) := by
  show _ ++ (cm.message ++ "\n" ++ x) = _
  simp [recon, String.append_assoc]

/-- A line that is not a header strips to no match. -/
lemma matchHeader_none_of_not_header {l : String} (h : isHeaderLine l = false) :
    matchHeader (pyStrip l) = none := by
  cases hm : matchHeader (pyStrip l) with
  | none => rfl
  | some g =>
    obtain ⟨d, t, s, m⟩ := g
    rw [isHeaderLine_true hm] at h
    cases h

/-- Round-trip invariant: over canonical lines, each processed line extends
the join of the reconstructed records by exactly a newline and that line. -/
lemma joinNL_inv : ∀ (rest : List String) (cur : Msg) (msgs : List Msg),
    (∀ l ∈ rest, canonicalLine l = true) →
    joinNL ((flush (rest.foldl step (some cur, msgs))).map recon)
      = joinNL (msgs.map recon ++ [recon cur]) ++ joinTail rest := by
  intro rest
  induction rest with
  | nil =>
    intro cur msgs _
    have : flush (some cur, msgs) = msgs ++ [cur] := rfl
    simp [this, joinTail, String.append_empty]
  | cons l tl ih =>
    intro cur msgs hcan
    have hl : canonicalLine l = true := hcan l (List.mem_cons_self l tl)
    have htl : ∀ l' ∈ tl, canonicalLine l' = true :=
      fun l' hl' => hcan l' (List.mem_cons_of_mem _ hl')
    simp only [List.foldl_cons]
    by_cases hch : canonicalHeader l = true
    · obtain ⟨d, t, s, m, hm, hstrl, hs, hm', heq⟩ := canonicalHeader_elim hch
      have hml : matchHeader (pyStrip l) = some (d, t, s, m) := by rw [hstrl]; exact hm
      rw [step_header (some cur, msgs) hml]
      have hflush : flush (some cur, msgs) = msgs ++ [cur] := rfl
      rw [hflush, ih _ _ htl, recon_mkMsg hs hm' heq]
      have hmap : (msgs ++ [cur]).map recon = msgs.map recon ++ [recon cur] := by simp
      rw [hmap, joinNL_snoc (msgs.map recon ++ [recon cur]) l (by simp)]
      simp [joinTail, String.append_assoc]
    · have hl' : (!(isHeaderLine l) && (pyStrip l == l) && !(l == "")) = true := by
        unfold canonicalLine at hl
        rcases Bool.or_eq_true_iff.mp hl with h | h
        · exact absurd h hch
        · exact h
      have hnh : isHeaderLine l = false := by
        rcases Bool.and_eq_true_iff.mp hl' with ⟨h1, _⟩
        rcases Bool.and_eq_true_iff.mp h1 with ⟨h2, _⟩
        simpa using h2
      have hstr : pyStrip l = l := by
        rcases Bool.and_eq_true_iff.mp hl' with ⟨h1, _⟩
        rcases Bool.and_eq_true_iff.mp h1 with ⟨_, h3⟩
        simpa using h3
      have hne : ¬(l = "") := by
        rcases Bool.and_eq_true_iff.mp hl' with ⟨_, h4⟩
        simpa using h4
      have hemp : ¬(pyStrip l = "") := by rw [hstr]; exact hne
      rw [step_cont (matchHeader_none_of_not_header hnh) hemp]
      rw [ih _ _ htl, recon_append, joinNL_snoc_app, hstr]
      simp [joinTail, String.append_assoc]

/-- Stripping ignores a fully-whitespace block in front. -/
lemma pyStrip_ws_prefixed {ws l : String} (h : ∀ c ∈ ws.data, isPyWs c = true) :
    pyStrip (ws ++ l) = pyStrip l := by
  unfold pyStrip
  rw [String.data_append, dropWhile_append_all _ _ h]

/-- Claim C1: the number of records `parse_whatsapp_chat` outputs equals the
number of input lines matching the header grammar (applied after strip):
zero header-matching lines give the empty sequence, and the last open
message is flushed at end of input. -/
theorem claim_C1 (lines : List String) :
    (parse_whatsapp_chat lines).length = lines.countP isHeaderLine := by
  unfold parse_whatsapp_chat
  rw [length_flush_foldl lines none []]
  simp [openCount]

/-- Claim C2: when a header line's date and time tokens fail to parse under
the fixed `%d/%m/%y, %I:%M %p` format, the record is still produced, with
timestamp `none` and with the date and time tokens preserved verbatim. -/
theorem claim_C2 (lines : List String) (l d t s m : String) (hmem : l ∈ lines)
    (hmatch : matchHeader (pyStrip l) = some (d, t, s, m))
    (hfail : strptimeDMY (d ++ ", " ++ t) = none) :
    ∃ msg ∈ parse_whatsapp_chat lines,
      msg.datetime = none ∧ msg.date = d ∧ msg.time = t := by
  obtain ⟨msg, hmemm, hfield⟩ := header_line_creates lines (none, []) l d t s m hmem hmatch
  refine ⟨msg, hmemm, ?_⟩
  simp only [coreFields, mkMsg, Prod.mk.injEq] at hfield
  obtain ⟨h1, h2, h3, _⟩ := hfield
  exact ⟨h1.trans hfail, h2, h3⟩

/-- Witness for C2 at the spec's scenario C input. -/
theorem claim_C2_witness :
    ∃ msg ∈ parse_whatsapp_chat ["32/13/21, 7:59 pm - Ananya: Oops"],
      msg.datetime = none ∧ msg.date = "32/13/21" ∧ msg.time = "7:59 pm" :=
  claim_C2 ["32/13/21, 7:59 pm - Ananya: Oops"] "32/13/21, 7:59 pm - Ananya: Oops"
    "32/13/21" "7:59 pm" "Ananya" "Oops" (by decide) (by decide) (by decide)

/-- Claim C3: while a message is open, a non-header line that is non-empty
after stripping is appended to the body as a newline plus the stripped
line; one that strips to nothing changes neither the open message nor the
output; and the spec's scenario B yields one record with body
"Line one\nLine two". -/
theorem claim_C3 :
    (∀ (line : String) (cur : Msg) (msgs : List Msg),
        matchHeader (pyStrip line) = none → ¬(pyStrip line = "") →
        step (some cur, msgs) line =
          (some { cur with message := cur.message ++ "\n" ++ pyStrip line }, msgs)) ∧
    (∀ (line : String) (cur : Msg) (msgs : List Msg),
        matchHeader (pyStrip line) = none → pyStrip line = "" →
        step (some cur, msgs) line = (some cur, msgs)) ∧
    parse_whatsapp_chat ["08/11/21, 7:59 pm - Ananya: Line one", "Line two"] =
      [{ datetime := some ⟨2021, 11, 8, 19, 59⟩, date := "08/11/21", time := "7:59 pm",
         sender := "Ananya", message := "Line one\nLine two" }] :=
  ⟨fun _ _ _ h hne => step_cont h hne,
   fun _ _ _ h he => step_skip h he,
   by decide⟩

/-- Witness for C3: the append and the no-change transitions at concrete
inputs. -/
theorem claim_C3_witness :
    step (some { datetime := none, date := "08/11/21", time := "7:59 pm",
                 sender := "Ananya", message := "Line one" }, []) "Line two"
      = (some { datetime := none, date := "08/11/21", time := "7:59 pm",
                sender := "Ananya",
                message := "Line one" ++ "\n" ++ pyStrip "Line two" }, []) ∧
    step (some { datetime := none, date := "08/11/21", time := "7:59 pm",
                 sender := "Ananya", message := "Line one" }, []) "   "
      = (some { datetime := none, date := "08/11/21", time := "7:59 pm",
                sender := "Ananya", message := "Line one" }, []) :=
  ⟨claim_C3.1 "Line two" _ [] (by decide) (by decide),
   claim_C3.2.1 "   " _ [] (by decide) (by decide)⟩

/-- Counterexample to C4 as stated: the non-empty line "noise" precedes any
header, the output sequence is empty, so the line is assigned to no
message. -/
theorem claim_C4_counterexample :
    ¬(pyStrip "noise" = "") ∧ parse_whatsapp_chat ["noise"] = [] := by decide

/-- Claim C4 (amended): line conservation holds from the first header line
on: the total number of body lines across all records equals the number of
assigned lines (headers, plus lines non-empty after strip) at or after the
first header; non-empty lines before the first header are discarded. -/
theorem claim_C4_amended (lines : List String)
    (h : ∀ l ∈ lines, ('\n' : Char) ∉ l.data) :
    totalSegs (parse_whatsapp_chat lines)
      = (lines.dropWhile fun l => !(isHeaderLine l)).countP assignedB := by
  unfold parse_whatsapp_chat
  rw [segs_inv_none lines [] h]
  simp [totalSegs]

/-- Witness for C4 (amended): noise, two headers, one continuation and one
blank line. -/
theorem claim_C4_witness :
    totalSegs (parse_whatsapp_chat
        ["x", "08/11/21, 7:59 pm - A: hi", "more", "", "08/11/21, 8:01 pm - B: yo"])
      = ((["x", "08/11/21, 7:59 pm - A: hi", "more", "", "08/11/21, 8:01 pm - B: yo"].dropWhile
          fun l => !(isHeaderLine l)).countP assignedB) :=
  claim_C4_amended _ (by decide)

/-- Counterexample to C5 as stated: a header-shaped line with an empty
remainder after the sender's colon-space is NOT classified as a header
(the message group of the pattern is `(.+)`). -/
theorem claim_C5_counterexample :
    isHeaderLine "08/11/21, 7:59 pm - Ananya: " = false ∧
    matchHeader "08/11/21, 7:59 pm - Ananya: " = none := by decide

/-- Claim C5 (amended): the header grammar requires a non-empty remainder:
every line the classifier accepts has a message group of at least one
character. -/
theorem claim_C5_amended (l d t s m : String)
    (h : matchHeader (pyStrip l) = some (d, t, s, m)) : ¬(m = "") :=
  matchHeader_msg_ne_empty h

/-- Witness for C5 (amended) at a concrete accepted header. -/
theorem claim_C5_witness : ¬(("Hi" : String) = "") :=
  claim_C5_amended "08/11/21, 7:59 pm - Ananya: Hi" "08/11/21" "7:59 pm" "Ananya" "Hi"
    (by decide)

/-- Counterexample to C6 as stated: a line with leading whitespace whose
stripped form matches the grammar IS classified as a header and starts a
new message rather than continuing the open one. -/
theorem claim_C6_counterexample :
    isHeaderLine " 08/11/21, 7:59 pm - Ananya: hi" = true ∧
    (parse_whatsapp_chat
        ["08/11/21, 7:58 pm - B: one", " 08/11/21, 7:59 pm - Ananya: hi"]).length = 2 := by
  decide

/-- Claim C6 (amended): classification strips BOTH leading and trailing
whitespace before matching, so prefixing any whitespace leaves the
classification unchanged. -/
theorem claim_C6_amended (ws l : String) (h : ∀ c ∈ ws.data, isPyWs c = true) :
    isHeaderLine (ws ++ l) = isHeaderLine l := by
  unfold isHeaderLine
  rw [pyStrip_ws_prefixed h]

/-- Witness for C6 (amended) with a single leading space. -/
theorem claim_C6_witness :
    isHeaderLine (" " ++ "08/11/21, 7:59 pm - Ananya: hi")
      = isHeaderLine "08/11/21, 7:59 pm - Ananya: hi" :=
  claim_C6_amended " " "08/11/21, 7:59 pm - Ananya: hi" (by decide)

/-- Counterexample to C7 as stated: the classifier accepts a line whose
sender group is a single space, which is empty after trimming. -/
theorem claim_C7_counterexample :
    matchHeader "08/11/21, 7:59 pm -  : x" = some ("08/11/21", "7:59 pm", " ", "x") ∧
    pyStrip " " = "" := by decide

/-- Claim C7 (amended): the sender group of every accepted line contains no
colon and has at least one character (but may be whitespace-only, hence
empty after trimming); the stored, stripped sender also contains no
colon. -/
theorem claim_C7_amended (l d t s m : String)
    (h : matchHeader (pyStrip l) = some (d, t, s, m)) :
    (∀ c ∈ s.data, ¬(c = ':')) ∧ ¬(s = "") ∧ ∀ c ∈ (pyStrip s).data, ¬(c = ':') :=
  ⟨matchHeader_sender_no_colon h, matchHeader_sender_ne_empty h,
   fun c hc => matchHeader_sender_no_colon h c (mem_pyStrip hc)⟩

/-- Witness for C7 (amended) at a concrete accepted header. -/
theorem claim_C7_witness :
    (∀ c ∈ ("Ananya" : String).data, ¬(c = ':')) ∧ ¬(("Ananya" : String) = "") ∧
      ∀ c ∈ (pyStrip "Ananya").data, ¬(c = ':') :=
  claim_C7_amended "08/11/21, 7:59 pm - Ananya: Hi" "08/11/21" "7:59 pm" "Ananya" "Hi"
    (by decide)

/-- Counterexample to C8 as stated: stripping loses the duplicated space
after the sender's colon, so the reconstruction is not the original line. -/
theorem claim_C8_counterexample :
    (parse_whatsapp_chat ["08/11/21, 7:59 pm - Ananya:  hi"]).map recon ≠
      ["08/11/21, 7:59 pm - Ananya:  hi"] := by decide

/-- Claim C8 (amended): the round trip holds for canonical transcripts: when
the first line is a canonical header and every line is canonical (headers in
canonical form; continuations stripped and non-empty), joining the
reconstructed records with newlines reproduces the joined transcript
line for line. -/
theorem claim_C8_amended (l0 : String) (tl : List String)
    (h0 : canonicalHeader l0 = true) (htl : ∀ l ∈ tl, canonicalLine l = true) :
    joinNL ((parse_whatsapp_chat (l0 :: tl)).map recon) = joinNL (l0 :: tl) := by
  obtain ⟨d, t, s, m, hm, hstrl, hs, hm', heq⟩ := canonicalHeader_elim h0
  have hml : matchHeader (pyStrip l0) = some (d, t, s, m) := by rw [hstrl]; exact hm
  unfold parse_whatsapp_chat
  rw [List.foldl_cons, step_header (none, []) hml]
  have hflush : flush ((none : Option Msg), ([] : List Msg)) = [] := rfl
  rw [hflush, joinNL_inv tl _ _ htl, recon_mkMsg hs hm' heq]
  simp [joinNL, joinTail, String.append_empty]

/-- Witness for C8 (amended) on a canonical two-line transcript. -/
theorem claim_C8_witness :
    joinNL ((parse_whatsapp_chat
        ["08/11/21, 7:59 pm - Ananya: Hi", "second line"]).map recon)
      = joinNL ["08/11/21, 7:59 pm - Ananya: Hi", "second line"] :=
  claim_C8_amended "08/11/21, 7:59 pm - Ananya: Hi" ["second line"] (by decide) (by decide)

/-- Claim C9: on non-empty text the language tag is decided by the ratio of
Devanagari code points (U+0900 to U+097F) to total code points: above 3/10
the script-heavy tag ("hindi-heavy"), else above 1/20 the mixed tag
("hinglish"), else the latin tag ("english"). -/
theorem claim_C9 (text : String) (h : ¬(text = "")) :
    detect_script text =
      if (hindiCount text : ℚ) / (text.data.length : ℚ) > 3 / 10 then "hindi-heavy"
      else if (hindiCount text : ℚ) / (text.data.length : ℚ) > 1 / 20 then "hinglish"
      else "english" := by
  have hne : ¬(text.data.length = 0) := by
    intro hd
    apply h
    cases text with
    | mk d =>
      have hd' : d = [] := List.length_eq_zero.mp hd
      rw [hd']
  simp only [detect_script, hindiCount]
  rw [if_neg hne]

/-- Witness for C9 on a plain-latin string. -/
theorem claim_C9_witness :
    detect_script "hello" =
      if (hindiCount "hello" : ℚ) / (("hello" : String).data.length : ℚ) > 3 / 10 then
        "hindi-heavy"
      else if (hindiCount "hello" : ℚ) / (("hello" : String).data.length : ℚ) > 1 / 20 then
        "hinglish"
      else "english" :=
  claim_C9 "hello" (by decide)

/-- Claim C10: the classifier is total; on text of zero length it returns
the tag "other" without forming the ratio, and that tag differs from the
three ratio-based tags. -/
theorem claim_C10 (text : String) :
    (text.data.length = 0 → detect_script text = "other") ∧
    detect_script text ∈ ["other", "hindi-heavy", "hinglish", "english"] ∧
    ¬(("other" : String) ∈ ["hindi-heavy", "hinglish", "english"]) := by
  refine ⟨?_, ?_, by decide⟩
  · intro h
    simp only [detect_script]
    rw [if_pos h]
  · simp only [detect_script]
    split_ifs <;> simp

/-- Witness for C10 at the empty string. -/
theorem claim_C10_witness :
    detect_script "" = "other" ∧
    detect_script "" ∈ ["other", "hindi-heavy", "hinglish", "english"] ∧
    ¬(("other" : String) ∈ ["hindi-heavy", "hinglish", "english"]) :=
  ⟨(claim_C10 "").1 rfl, (claim_C10 "").2.1, (claim_C10 "").2.2⟩
